import Mathlib

/-!
Shallow embedding of the editable-list web component
(src/src/editable-list.js).

The component state that the verified claims depend on is the ordered
sequence of item strings held in the li elements of the shadow DOM, the
two relevant element attributes (allow-duplicates and duplicate-prompt)
and the editing flag.  Item values are modelled as plain strings:
innerText, innerHTML and decodeHtml coincide on values without markup,
which is the domain the public API documents.

Observable effects of an operation are the alert calls it makes and the
change events it dispatches; both are collected in an Outcome value.
-/

/-- Value of a field of a dispatched event detail object: a JS string or null. -/
inductive JsVal where
  | null : JsVal
  | str : String → JsVal
deriving Repr, DecidableEq

/-- Detail object of a change event, as the ordered field list of the JS object literal. -/
abbrev EventDetail := List (String × JsVal)

/-- Component state: the two attributes read by the item operations (getAttribute
returns null when absent, modelled by none), the ordered list of item values in
the shadow DOM, and the editing flag. -/
structure EditableList where
  allowDuplicatesAttr : Option String
  duplicatePromptAttr : Option String
  itemList : List String
  editing : Bool
deriving Repr, DecidableEq

/-- Result of one operation: the next state, the alert messages shown (in order)
and the change events dispatched (in order). -/
structure Outcome where
  state : EditableList
  alerts : List String
  events : List EventDetail
deriving Repr, DecidableEq

/-- Whitespace characters stripped by the JS string trim method. -/
def jsIsSpace (c : Char) : Bool :=
  c = ' ' || c = '\t' || c = '\n' || c = '\r'

/-- Model of the JS string trim method: strips leading and trailing whitespace. -/
def jsTrim (s : String) : String :=
  String.mk (((s.data.dropWhile jsIsSpace).reverse.dropWhile jsIsSpace).reverse)

/-- Static default duplicate prompt (field duplicatePromptDefault in the source). -/
def duplicatePromptDefault : String := "This value already exists!"

/-- Model of a JS expression attrValue || fallback, where getAttribute gave
attrValue: null and the empty string are falsy. -/
def getAttributeOr (attr : Option String) (fallback : String) : String :=
  match attr with
  | none => fallback
  | some s => if s = "" then fallback else s

/-- Model of getAttribute allow-duplicates followed by comparison !== "false",
as computed at each use site in the source. -/
def allowDuplicatesOf (el : EditableList) : Bool :=
  el.allowDuplicatesAttr != some "false"

/-- Model of getAttribute duplicate-prompt followed by || duplicatePromptDefault. -/
def duplicatePromptOf (el : EditableList) : String :=
  getAttributeOr el.duplicatePromptAttr duplicatePromptDefault

/-- Loop of valueExists over the item wrappers, carrying the DOM index s of the
head of the remaining list; excl is the index of the wrapper passed as the item
argument to exclude from the comparison (none models passing null). -/
def valueExistsFrom (s : Nat) (items : List String) (v : String) (excl : Option Nat) : Bool :=
  match items with
  | [] => false
  | x :: rest => (decide (excl ≠ some s) && x == v) || valueExistsFrom (s + 1) rest v excl

/-- Model of valueExists: true when some item other than the excluded one
has value v (the loop compares innerText with !==, breaking at the first hit). -/
def valueExists (items : List String) (v : String) (excl : Option Nat) : Bool :=
  valueExistsFrom 0 items v excl

/-- Model of getLiAtIndex: children[index] || null.  A negative index or an
index at or past the length yields undefined, hence null (none); otherwise the
li at that position, identified by its Nat index. -/
def getLiAtIndex (items : List String) (index : Int) : Option Nat :=
  if 0 ≤ index ∧ index < (items.length : Int) then some index.toNat else none

/-- Result record returned by the private changeItem (fields val, accepted, differs). -/
structure ChangeResult where
  val : String
  accepted : Bool
  differs : Bool
deriving Repr, DecidableEq

/-- Model of the private changeItem on the li at index i: a blank new value is
replaced by the previous value; with duplicates disallowed a value already
present on another item is rejected and replaced by the previous value; the
wrapper is then rewritten with the resulting value. -/
def changeItemAt (allowDup : Bool) (items : List String) (i : Nat)
    (newValue previousValue : String) : List String × ChangeResult :=
  let val0 := if jsTrim newValue = "" then previousValue else newValue
  let dup := !allowDup && valueExists items val0 (some i)
  let val := if dup then previousValue else val0
  (items.set i val, { val := val, accepted := !dup, differs := val != previousValue })

/-- Model of the private moveUpListItem: no previous sibling (index 0) fails,
otherwise the li is inserted before its predecessor, swapping positions
i-1 and i.  Callers always pass the index of an existing li (i < length). -/
def moveUpListItem (items : List String) (i : Nat) : List String × Bool :=
  if i = 0 then (items, false)
  else ((items.set (i - 1) (items.getD i "")).set i (items.getD (i - 1) ""), true)

/-- Model of the private moveDownListItem: no next sibling fails, otherwise the
next li is inserted before this one, swapping positions i and i+1. -/
def moveDownListItem (items : List String) (i : Nat) : List String × Bool :=
  if i + 1 < items.length then
    ((items.set i (items.getD (i + 1) "")).set (i + 1) (items.getD i ""), true)
  else (items, false)

/-- Event detail dispatched by the add handler. -/
def detailAdd (v : String) : EventDetail :=
  [("action", .str "add"), ("previous", .null), ("new", .str v)]

/-- Event detail dispatched when an item edit changed the value. -/
def detailEdit (p v : String) : EventDetail :=
  [("action", .str "edit"), ("previous", .str p), ("new", .str v)]

/-- Event detail dispatched by the remove handler. -/
def detailRemove (p : String) : EventDetail :=
  [("action", .str "remove"), ("previous", .str p), ("new", .null)]

/-- Event detail dispatched by the move-up and move-down handlers. -/
def detailMove (dir v : String) : EventDetail :=
  [("action", .str "move"), ("direction", .str dir), ("item", .str v)]

/-- Loop of the public addItems: each candidate is appended to the DOM list
unless duplicates are disallowed and the value already exists among the items
present at that point of the loop (earlier appended candidates included). -/
def addItemsGo (allowDup : Bool) (cur : List String) (toAdd : List String) : List String :=
  match toAdd with
  | [] => cur
  | x :: rest =>
    if allowDup || !valueExists cur x none then addItemsGo allowDup (cur ++ [x]) rest
    else addItemsGo allowDup cur rest

/-- Model of the public items method. -/
def items (el : EditableList) : List String :=
  el.itemList

/-- Model of the public addItems method: appends the accepted values, shows no
alert and dispatches no event. -/
def addItems (el : EditableList) (listItems : List String) : Outcome :=
  { state := { el with itemList := addItemsGo (allowDuplicatesOf el) el.itemList listItems },
    alerts := [], events := [] }

/-- Model of the addListItem UI handler (Enter in the input or a click on the
add button), with the text input holding inputValue: a blank input is ignored;
with duplicates disallowed an existing value alerts the duplicate prompt (when
the prompt is not blank) and returns; otherwise addItems runs and an add
change event is dispatched. -/
def addListItem (el : EditableList) (inputValue : String) : Outcome :=
  if jsTrim inputValue = "" then { state := el, alerts := [], events := [] }
  else
    let allowDup := allowDuplicatesOf el
    let prompt := duplicatePromptOf el
    if !allowDup && valueExists el.itemList inputValue none then
      { state := el,
        alerts := if jsTrim prompt = "" then [] else [prompt],
        events := [] }
    else
      { state := (addItems el [inputValue]).state,
        alerts := [],
        events := [detailAdd inputValue] }

/-- Model of the public changeItem method: an out-of-range index or an active
editing session is a no-op; otherwise the private changeItem rewrites the item,
with the previous value read from the wrapper.  No alert, no event. -/
def changeItem (el : EditableList) (index : Int) (newValue : String) : Outcome :=
  match getLiAtIndex el.itemList index with
  | none => { state := el, alerts := [], events := [] }
  | some i =>
    if el.editing then { state := el, alerts := [], events := [] }
    else
      let previousValue := el.itemList.getD i ""
      let r := changeItemAt (allowDuplicatesOf el) el.itemList i newValue previousValue
      { state := { el with itemList := r.1, editing := false }, alerts := [], events := [] }

/-- Model of the itemEditFinished UI handler on the li at index i whose edit
input holds inputValue; the saved previous value is the item value at edit
start.  A rejected duplicate alerts the prompt (when not blank); an edit
change event is dispatched exactly when the value differs. -/
def itemEditFinished (el : EditableList) (i : Nat) (inputValue : String) : Outcome :=
  if el.editing then
    let previousValue := el.itemList.getD i ""
    let r := changeItemAt (allowDuplicatesOf el) el.itemList i inputValue previousValue
    let prompt := duplicatePromptOf el
    { state := { el with itemList := r.1, editing := false },
      alerts := if !r.2.accepted && !(jsTrim prompt = "") then [prompt] else [],
      events := if r.2.differs then [detailEdit previousValue r.2.val] else [] }
  else { state := el, alerts := [], events := [] }

/-- Model of the public removeItem method: an out-of-range index is a no-op,
otherwise the li at the index is removed.  No alert, no event. -/
def removeItem (el : EditableList) (index : Int) : Outcome :=
  match getLiAtIndex el.itemList index with
  | none => { state := el, alerts := [], events := [] }
  | some i => { state := { el with itemList := el.itemList.eraseIdx i }, alerts := [], events := [] }

/-- Model of the removeListItemHandler UI gesture on the li at index i: the
value is read from the wrapper, the li is removed, and a remove change event
is dispatched. -/
def removeListItemHandler (el : EditableList) (i : Nat) : Outcome :=
  { state := { el with itemList := el.itemList.eraseIdx i },
    alerts := [],
    events := [detailRemove (el.itemList.getD i "")] }

/-- Model of the public moveItemUp method: an out-of-range index is a no-op,
otherwise the private moveUpListItem runs.  No alert, no event. -/
def moveItemUp (el : EditableList) (index : Int) : Outcome :=
  match getLiAtIndex el.itemList index with
  | none => { state := el, alerts := [], events := [] }
  | some i =>
    { state := { el with itemList := (moveUpListItem el.itemList i).1 }, alerts := [], events := [] }

/-- Model of the public moveItemDown method. -/
def moveItemDown (el : EditableList) (index : Int) : Outcome :=
  match getLiAtIndex el.itemList index with
  | none => { state := el, alerts := [], events := [] }
  | some i =>
    { state := { el with itemList := (moveDownListItem el.itemList i).1 }, alerts := [], events := [] }

/-- Model of the moveUpListItemEvent UI gesture on the li at index i: when the
move succeeds, a move change event with fields action, direction and item is
dispatched, the item value read from the moved li. -/
def moveUpListItemEvent (el : EditableList) (i : Nat) : Outcome :=
  let r := moveUpListItem el.itemList i
  if r.2 then
    { state := { el with itemList := r.1 }, alerts := [],
      events := [detailMove "up" (el.itemList.getD i "")] }
  else { state := el, alerts := [], events := [] }

/-- Model of the moveDownListItemEvent UI gesture on the li at index i. -/
def moveDownListItemEvent (el : EditableList) (i : Nat) : Outcome :=
  let r := moveDownListItem el.itemList i
  if r.2 then
    { state := { el with itemList := r.1 }, alerts := [],
      events := [detailMove "down" (el.itemList.getD i "")] }
  else { state := el, alerts := [], events := [] }

/-- Model of the public removeAllItems method. -/
def removeAllItems (el : EditableList) : Outcome :=
  { state := { el with itemList := [] }, alerts := [], events := [] }

/-- Loop of the substring test: checks sub as a prefix at each position of l. -/
def charsInclude (l sub : List Char) : Bool :=
  match l with
  | [] => sub.isEmpty
  | c :: rest => List.isPrefixOf sub (c :: rest) || charsInclude rest sub

/-- Model of the JS substring test s.includes(sub). -/
def jsIncludes (s sub : String) : Bool :=
  charsInclude s.data sub.data

/-- Model of initialItems: iterates the element attributes in order and pushes
the value of every attribute whose name contains the substring list-item. -/
def initialItems (attrs : List (String × String)) : List String :=
  match attrs with
  | [] => []
  | a :: rest =>
    if jsIncludes a.1 "list-item" then a.2 :: initialItems rest else initialItems rest

/-- Modelled from the spec: the initial items as the spec words them, namely the
values of exactly the attributes whose names match the pattern list-item-*,
that is, the names beginning with list-item- followed by anything.  Stated for
comparison with initialItems, which is translated from the source. -/
def specInitialItems (attrs : List (String × String)) : List String :=
  (attrs.filter (fun a => List.isPrefixOf "list-item-".data a.1.data)).map (fun a => a.2)

/-!
Helper lemmas about the embedded operations.
-/

/-- With no excluded wrapper, the valueExists loop is a plain membership test. -/
theorem valueExistsFrom_none (l : List String) (v : String) :
    ∀ s, valueExistsFrom s l v none = l.any (fun x => x == v) := by
  induction l with
  | nil => intro s; rfl
  | cons x rest ih => intro s; simp [valueExistsFrom, ih]

/-- valueExists with no excluded wrapper decides membership. -/
theorem valueExists_none_iff (l : List String) (v : String) :
    valueExists l v none = true ↔ v ∈ l := by
  rw [valueExists, valueExistsFrom_none]
  simp [List.any_eq_true]

/-- When the valueExists loop with an excluded index returns false, no position
other than the excluded one holds the value. -/
theorem valueExistsFrom_some_false (j : Nat) (v : String) :
    ∀ (l : List String) (s : Nat), valueExistsFrom s l v (some j) = false →
      ∀ k, k < l.length → s + k ≠ j → l.getD k "" ≠ v := by
  intro l
  induction l with
  | nil => intro s _ k hk; simp at hk
  | cons x rest ih =>
    intro s h k hk hne
    rw [valueExistsFrom] at h
    rcases Bool.or_eq_false_iff.mp h with ⟨h1, h2⟩
    cases k with
    | zero =>
      rcases Bool.and_eq_false_iff.mp h1 with h1 | h1
      · exfalso
        have : j = s := by simpa using h1
        omega
      · simpa using h1
    | succ n =>
      have := ih (s + 1) h2 n (by simpa using Nat.lt_of_succ_lt_succ hk) (by omega)
      simpa using this

/-- Specialisation of the loop lemma to the whole list. -/
theorem valueExists_some_false (l : List String) (j : Nat) (v : String)
    (h : valueExists l v (some j) = false) :
    ∀ k, k < l.length → k ≠ j → l.getD k "" ≠ v := by
  intro k hk hkj
  exact valueExistsFrom_some_false j v l 0 h k hk (by omega)

/-- Setting an index to its own current value leaves the list unchanged. -/
theorem set_getD_self (l : List String) : ∀ i, l.set i (l.getD i "") = l := by
  induction l with
  | nil => intro i; rfl
  | cons x rest ih =>
    intro i
    cases i with
    | zero => simp
    | succ n => rw [List.getD_cons_succ, List.set_cons_succ, ih n]

/-- Setting position j to a value held at no other position preserves Nodup. -/
theorem nodup_set_of_fresh (v : String) :
    ∀ (l : List String) (j : Nat), l.Nodup →
      (∀ k, k < l.length → k ≠ j → l.getD k "" ≠ v) → (l.set j v).Nodup := by
  intro l
  induction l with
  | nil => intro j _ _; simp
  | cons x rest ih =>
    intro j hnd hfresh
    rcases List.nodup_cons.mp hnd with ⟨hx, hrest⟩
    cases j with
    | zero =>
      rw [List.set_cons_zero]
      refine List.nodup_cons.mpr ⟨?_, hrest⟩
      intro hv
      rcases List.mem_iff_getElem.mp hv with ⟨k, hk, hkv⟩
      refine hfresh (k + 1) (by simpa using Nat.succ_lt_succ hk) (by omega) ?_
      rw [List.getD_cons_succ, List.getD_eq_getElem rest "" hk]
      exact hkv
    | succ n =>
      rw [List.set_cons_succ]
      refine List.nodup_cons.mpr ⟨?_, ih n hrest ?_⟩
      · intro hmem
        rcases List.mem_or_eq_of_mem_set hmem with h | h
        · exact hx h
        · have h0 := hfresh 0 (by simp) (by omega)
          rw [List.getD_cons_zero] at h0
          exact h0 h
      · intro k hk hkn
        have := hfresh (k + 1) (by simpa using Nat.succ_lt_succ hk) (by omega)
        simpa using this

/-- Removal at an index keeps exactly the elements before and after it, in order. -/
theorem eraseIdx_as_take_drop {α : Type} (l : List α) :
    ∀ i, l.eraseIdx i = l.take i ++ l.drop (i + 1) := by
  induction l with
  | nil => intro i; simp [List.eraseIdx]
  | cons x rest ih =>
    intro i
    cases i with
    | zero => simp [List.eraseIdx]
    | succ n => simp [List.eraseIdx, ih n]

/-- The double set performed by the move operations swaps two adjacent
positions and keeps every other element in place. -/
theorem set_swap_adjacent :
    ∀ (l : List String) (p : Nat), p + 1 < l.length →
      (l.set p (l.getD (p + 1) "")).set (p + 1) (l.getD p "") =
        l.take p ++ l.getD (p + 1) "" :: l.getD p "" :: l.drop (p + 2) := by
  intro l
  induction l with
  | nil => intro p hp; simp at hp
  | cons x rest ih =>
    intro p hp
    cases p with
    | zero =>
      cases rest with
      | nil => simp at hp
      | cons y rest2 => simp
    | succ q =>
      have hq : q + 1 < rest.length := by simp at hp; omega
      rw [List.getD_cons_succ, List.getD_cons_succ, List.set_cons_succ, List.set_cons_succ,
        List.take_succ_cons, List.drop_succ_cons, List.cons_append, ih q hq]

/-- With duplicates allowed, the addItems loop appends every candidate. -/
theorem addItemsGo_true : ∀ (xs cur : List String), addItemsGo true cur xs = cur ++ xs := by
  intro xs
  induction xs with
  | nil => intro cur; simp [addItemsGo]
  | cons x rest ih => intro cur; simp [addItemsGo, ih]

/-- With duplicates disallowed, the addItems loop preserves freedom from duplicates. -/
theorem addItemsGo_nodup :
    ∀ (xs cur : List String), cur.Nodup → (addItemsGo false cur xs).Nodup := by
  intro xs
  induction xs with
  | nil => intro cur h; simpa [addItemsGo] using h
  | cons x rest ih =>
    intro cur h
    rw [addItemsGo]
    cases hex : valueExists cur x none with
    | true =>
      simp only [hex, Bool.not_true, Bool.false_or, if_neg Bool.false_ne_true]
      exact ih cur h
    | false =>
      have hx : x ∉ cur := by
        intro hm
        rw [(valueExists_none_iff cur x).mpr hm] at hex
        exact absurd hex (by decide)
      simp only [hex, Bool.not_false, Bool.false_or, if_pos rfl]
      refine ih (cur ++ [x]) ?_
      simp [List.nodup_append, h, hx]

/-- With duplicates disallowed, a single already-present value is skipped. -/
theorem addItemsGo_skip (cur : List String) (x : String)
    (h : valueExists cur x none = true) : addItemsGo false cur [x] = cur := by
  simp [addItemsGo, h]

/-- The attribute comparison yields false exactly on the string false. -/
theorem allowDuplicatesOf_eq_false (el : EditableList)
    (h : el.allowDuplicatesAttr = some "false") : allowDuplicatesOf el = false := by
  simp [allowDuplicatesOf, h]

/-- Any other attribute value, absence included, leaves duplicates allowed. -/
theorem allowDuplicatesOf_eq_true (el : EditableList)
    (h : el.allowDuplicatesAttr ≠ some "false") : allowDuplicatesOf el = true := by
  simp [allowDuplicatesOf, bne_iff_ne, h]

/-- The private changeItem preserves freedom from duplicates when duplicates
are disallowed and the previous value is the one held at the index. -/
theorem changeItemAt_nodup (l : List String) (i : Nat) (newValue : String)
    (hnd : l.Nodup) :
    (changeItemAt false l i newValue (l.getD i "")).1.Nodup := by
  simp only [changeItemAt, Bool.not_false, Bool.true_and]
  split
  · rw [ite_self, set_getD_self]
    exact hnd
  · split
    · rw [set_getD_self]
      exact hnd
    · rename_i hdup
      have hdup2 : valueExists l newValue (some i) = false := by simpa using hdup
      exact nodup_set_of_fresh _ l i hnd (valueExists_some_false l i _ hdup2)

/-!
Claim theorems.
-/

/-- Claim C4: removeItem at a valid index removes exactly the item at that
position, leaving the values and relative order of all other items intact
(the list becomes the part before the index followed by the part after it);
every other integer index, negative or at least the length, leaves the list
unchanged, and the operation is total, so no error is raised. -/
theorem C4_removeItem_spec (el : EditableList) (index : Int) :
    (removeItem el index).state.itemList =
      if 0 ≤ index ∧ index < (el.itemList.length : Int) then
        el.itemList.take index.toNat ++ el.itemList.drop (index.toNat + 1)
      else el.itemList := by
  by_cases h : 0 ≤ index ∧ index < (el.itemList.length : Int)
  · rw [if_pos h]
    unfold removeItem getLiAtIndex
    rw [if_pos h]
    exact eraseIdx_as_take_drop el.itemList index.toNat
  · rw [if_neg h]
    unfold removeItem getLiAtIndex
    rw [if_neg h]

/-- Claim C5: moveItemUp at an index i with 1 <= i < n swaps the items at
positions i-1 and i and leaves every other item in place (the list becomes the
prefix before i-1, then the two swapped values, then the suffix after i);
index 0 and every out-of-range index leave the list unchanged, and the
operation is total, so no error is raised. -/
theorem C5_moveItemUp_spec (el : EditableList) (index : Int) :
    (moveItemUp el index).state.itemList =
      if 1 ≤ index ∧ index < (el.itemList.length : Int) then
        el.itemList.take (index.toNat - 1) ++
          el.itemList.getD index.toNat "" :: el.itemList.getD (index.toNat - 1) "" ::
            el.itemList.drop (index.toNat + 1)
      else el.itemList := by
  by_cases h0 : 0 ≤ index ∧ index < (el.itemList.length : Int)
  · rcases Nat.eq_zero_or_pos index.toNat with hi | hi
    · have hidx : index = 0 := by omega
      subst hidx
      rw [if_neg (by omega)]
      unfold moveItemUp getLiAtIndex
      rw [if_pos h0]
      rfl
    · have h1 : 1 ≤ index ∧ index < (el.itemList.length : Int) := by omega
      rw [if_pos h1]
      unfold moveItemUp getLiAtIndex
      rw [if_pos h0]
      show (moveUpListItem el.itemList index.toNat).1 = _
      unfold moveUpListItem
      rw [if_neg (by omega)]
      have hp1 : index.toNat - 1 + 1 = index.toNat := by omega
      have hlt : index.toNat - 1 + 1 < el.itemList.length := by omega
      have hsw := set_swap_adjacent el.itemList (index.toNat - 1) hlt
      rw [hp1] at hsw
      have hp2 : index.toNat - 1 + 2 = index.toNat + 1 := by omega
      rw [hp2] at hsw
      exact hsw
  · rw [if_neg (by omega)]
    unfold moveItemUp getLiAtIndex
    rw [if_neg h0]

/-- Claim C6: moveItemDown at an index i with 0 <= i < n-1 swaps the items at
positions i and i+1 and leaves every other item in place; index n-1 and every
out-of-range index leave the list unchanged, and the operation is total, so no
error is raised. -/
theorem C6_moveItemDown_spec (el : EditableList) (index : Int) :
    (moveItemDown el index).state.itemList =
      if 0 ≤ index ∧ index + 1 < (el.itemList.length : Int) then
        el.itemList.take index.toNat ++
          el.itemList.getD (index.toNat + 1) "" :: el.itemList.getD index.toNat "" ::
            el.itemList.drop (index.toNat + 2)
      else el.itemList := by
  by_cases h0 : 0 ≤ index ∧ index < (el.itemList.length : Int)
  · by_cases h1 : index + 1 < (el.itemList.length : Int)
    · rw [if_pos ⟨h0.1, h1⟩]
      unfold moveItemDown getLiAtIndex
      rw [if_pos h0]
      show (moveDownListItem el.itemList index.toNat).1 = _
      unfold moveDownListItem
      rw [if_pos (by omega)]
      exact set_swap_adjacent el.itemList index.toNat (by omega)
    · rw [if_neg (by omega)]
      unfold moveItemDown getLiAtIndex
      rw [if_pos h0]
      show (moveDownListItem el.itemList index.toNat).1 = _
      unfold moveDownListItem
      rw [if_neg (by omega)]
  · rw [if_neg (by omega)]
    unfold moveItemDown getLiAtIndex
    rw [if_neg h0]

/-- Claim C9: no public mutator method dispatches a change event: for every
state and all arguments, addItems, changeItem, removeItem, moveItemUp,
moveItemDown and removeAllItems dispatch an empty sequence of change events,
so change events can arise only from the user-gesture handlers. -/
theorem C9_mutators_dispatch_no_event (el : EditableList) (xs : List String)
    (index : Int) (v : String) :
    (addItems el xs).events = [] ∧ (changeItem el index v).events = [] ∧
    (removeItem el index).events = [] ∧ (moveItemUp el index).events = [] ∧
    (moveItemDown el index).events = [] ∧ (removeAllItems el).events = [] := by
  refine ⟨rfl, ?_, ?_, ?_, ?_, rfl⟩
  · unfold changeItem
    split
    · rfl
    · split <;> rfl
  · unfold removeItem
    split <;> rfl
  · unfold moveItemUp
    split <;> rfl
  · unfold moveItemDown
    split <;> rfl

/-- Claim C2 counterexample: a move notification dispatches a change event
whose detail has the fields action, direction and item, not action, previous
and new; shown on the concrete state with items a and b, moving item 1 up. -/
theorem C2_counterexample :
    (moveUpListItemEvent ⟨none, none, ["a", "b"], false⟩ 1).events.map
        (fun d => d.map Prod.fst) = [["action", "direction", "item"]] ∧
      ¬ (["action", "direction", "item"] = ["action", "previous", "new"]) := by
  constructor
  · rfl
  · decide

/-- Claim C2 amended: every change event dispatched for an add, edit or remove
notification carries a detail with exactly the fields action, previous and
new, in that order; the move notifications instead carry exactly the fields
action, direction and item. -/
theorem C2_event_detail_fields (el : EditableList) (v : String) (i : Nat) :
    ((addListItem el v).events.all
        (fun d => d.map Prod.fst == ["action", "previous", "new"])) = true ∧
    ((itemEditFinished el i v).events.all
        (fun d => d.map Prod.fst == ["action", "previous", "new"])) = true ∧
    ((removeListItemHandler el i).events.all
        (fun d => d.map Prod.fst == ["action", "previous", "new"])) = true ∧
    ((moveUpListItemEvent el i).events.all
        (fun d => d.map Prod.fst == ["action", "direction", "item"])) = true ∧
    ((moveDownListItemEvent el i).events.all
        (fun d => d.map Prod.fst == ["action", "direction", "item"])) = true := by
  refine ⟨?_, ?_, rfl, ?_, ?_⟩
  · unfold addListItem
    split
    · rfl
    · dsimp only
      split <;> rfl
  · unfold itemEditFinished
    split
    · dsimp only
      split <;> rfl
    · rfl
  · unfold moveUpListItemEvent
    dsimp only
    split <;> rfl
  · unfold moveDownListItemEvent
    dsimp only
    split <;> rfl

/-- Claim C7 counterexample: initialItems tests whether an attribute name
merely contains list-item as a substring, so the attribute named my-list-item,
whose name does not match the pattern list-item-*, still contributes an item,
unlike what the claim states (specInitialItems renders the claimed pattern
reading). -/
theorem C7_counterexample :
    initialItems [("my-list-item", "v")] = ["v"] ∧
      specInitialItems [("my-list-item", "v")] = [] := by
  decide

/-- Claim C7 amended: at initialization the items are exactly the values of
the attributes whose names contain list-item as a substring, one item per such
attribute, in attribute order; an attribute whose name does not contain that
substring contributes nothing. -/
theorem C7_initialItems_characterisation (attrs : List (String × String)) :
    initialItems attrs =
      (attrs.filter (fun a => jsIncludes a.1 "list-item")).map (fun a => a.2) := by
  induction attrs with
  | nil => rfl
  | cons a rest ih =>
    rw [initialItems, List.filter_cons]
    by_cases h : jsIncludes a.1 "list-item" = true
    · rw [if_pos h, if_pos h, List.map_cons, ih]
    · rw [if_neg h, if_neg h, ih]

/-- Claim C1 counterexample: with duplicates disallowed, adding an existing
value through addItems leaves the list unchanged but shows no duplicate
prompt; the UI add handler also shows no prompt when the duplicate-prompt
attribute holds a blank string. -/
theorem C1_counterexample :
    (addItems ⟨some "false", none, ["a"], false⟩ ["a"]).state.itemList = ["a"] ∧
    (addItems ⟨some "false", none, ["a"], false⟩ ["a"]).alerts = [] ∧
    (addListItem ⟨some "false", some " ", ["a"], false⟩ "a").state.itemList = ["a"] ∧
    (addListItem ⟨some "false", some " ", ["a"], false⟩ "a").alerts = [] := by
  decide

/-- Claim C1 amended: with duplicates disallowed and the value already an item
of the list, both add paths leave the list unchanged; the UI add handler, on a
non-blank input, shows the duplicate prompt exactly when the effective prompt
message is not blank, while addItems rejects the duplicate silently, with no
prompt. -/
theorem C1_duplicate_add_rejected (el : EditableList) (v : String)
    (hdup : el.allowDuplicatesAttr = some "false") (hmem : v ∈ el.itemList) :
    (addItems el [v]).state.itemList = el.itemList ∧
    (addItems el [v]).alerts = [] ∧
    (¬ jsTrim v = "" →
      (addListItem el v).state.itemList = el.itemList ∧
      (addListItem el v).alerts =
        (if jsTrim (duplicatePromptOf el) = "" then [] else [duplicatePromptOf el])) := by
  have hAllow := allowDuplicatesOf_eq_false el hdup
  have hex : valueExists el.itemList v none = true := (valueExists_none_iff _ _).mpr hmem
  refine ⟨?_, rfl, ?_⟩
  · show addItemsGo (allowDuplicatesOf el) el.itemList [v] = el.itemList
    rw [hAllow]
    exact addItemsGo_skip _ _ hex
  · intro hv
    simp only [addListItem, hAllow, hex, Bool.not_false, Bool.true_and, if_neg hv]
    exact ⟨rfl, rfl⟩

/-- Witness for the amended claim C1 at a concrete state. -/
theorem C1_duplicate_add_rejected_witness :
    (addItems ⟨some "false", none, ["b"], false⟩ ["b"]).state.itemList = ["b"] ∧
    (addListItem ⟨some "false", none, ["b"], false⟩ "b").alerts =
      ["This value already exists!"] := by
  have h := C1_duplicate_add_rejected ⟨some "false", none, ["b"], false⟩ "b" rfl (by decide)
  exact ⟨h.1, ((h.2.2 (by decide)).2).trans (by decide)⟩

/-- With duplicates allowed and a non-blank new value, the private changeItem
writes exactly the new value at the index. -/
theorem changeItemAt_allow (l : List String) (i : Nat) (nv pv : String)
    (hv : ¬ jsTrim nv = "") : (changeItemAt true l i nv pv).1 = l.set i nv := by
  simp only [changeItemAt, Bool.not_true, Bool.false_and, if_neg hv]
  rfl

/-- With duplicates allowed the private changeItem always accepts. -/
theorem changeItemAt_allow_accepted (l : List String) (i : Nat) (nv pv : String) :
    (changeItemAt true l i nv pv).2.accepted = true := by
  simp only [changeItemAt, Bool.not_true, Bool.false_and]
  rfl

/-- Claim C8: duplicate values are rejected only when the allow-duplicates
attribute is exactly the string false; for every other attribute value,
absence included, addItems appends a value already present in the list, the
UI add handler adds it with no prompt, the public changeItem rewrites an item
to a duplicate value, and finishing a UI edit accepts a duplicate value with
no prompt. -/
theorem C8_duplicates_accepted_unless_false (el : EditableList) (v : String)
    (index : Int) (i : Nat) (hattr : el.allowDuplicatesAttr ≠ some "false") :
    (addItems el [v]).state.itemList = el.itemList ++ [v] ∧
    (¬ jsTrim v = "" →
      (addListItem el v).state.itemList = el.itemList ++ [v] ∧
      (addListItem el v).alerts = []) ∧
    (el.editing = false → getLiAtIndex el.itemList index = some i → ¬ jsTrim v = "" →
      (changeItem el index v).state.itemList = el.itemList.set i v) ∧
    (el.editing = true → ¬ jsTrim v = "" →
      (itemEditFinished el i v).state.itemList = el.itemList.set i v ∧
      (itemEditFinished el i v).alerts = []) := by
  have hAllow := allowDuplicatesOf_eq_true el hattr
  have hadd : (addItems el [v]).state.itemList = el.itemList ++ [v] := by
    show addItemsGo (allowDuplicatesOf el) el.itemList [v] = el.itemList ++ [v]
    rw [hAllow]
    exact addItemsGo_true [v] el.itemList
  refine ⟨hadd, ?_, ?_, ?_⟩
  · intro hv
    simp only [addListItem, hAllow, Bool.not_true, Bool.false_and, if_neg hv,
      if_neg Bool.false_ne_true]
    exact ⟨hadd, trivial⟩
  · intro hed hli hv
    simp only [changeItem, hli, hed, if_neg Bool.false_ne_true]
    show (changeItemAt (allowDuplicatesOf el) el.itemList i v (el.itemList.getD i "")).1 =
      el.itemList.set i v
    rw [hAllow]
    exact changeItemAt_allow el.itemList i v _ hv
  · intro hed hv
    simp only [itemEditFinished, hed, if_pos rfl]
    constructor
    · show (changeItemAt (allowDuplicatesOf el) el.itemList i v (el.itemList.getD i "")).1 =
        el.itemList.set i v
      rw [hAllow]
      exact changeItemAt_allow el.itemList i v _ hv
    · show (if _ = true then _ else []) = []
      rw [hAllow, changeItemAt_allow_accepted]
      rfl

/-- Witness for claim C8 at a concrete state: with the attribute absent, a
value already present is appended and may overwrite another item. -/
theorem C8_duplicates_accepted_unless_false_witness :
    (addItems ⟨none, none, ["x"], false⟩ ["x"]).state.itemList = ["x", "x"] ∧
    (changeItem ⟨none, none, ["y", "x"], false⟩ 0 "x").state.itemList = ["x", "x"] := by
  have h1 := C8_duplicates_accepted_unless_false ⟨none, none, ["x"], false⟩ "x" 0 0
    (by decide)
  have h2 := C8_duplicates_accepted_unless_false ⟨none, none, ["y", "x"], false⟩ "x" 0 0
    (by decide)
  exact ⟨h1.1, (h2.2.2.1 rfl (by decide) (by decide)).trans (by decide)⟩

/-- Claim C3: with duplicates disallowed, every operation that adds or
rewrites item values preserves freedom from duplicates: starting from a
duplicate-free list, addItems, the public changeItem, the UI add handler and
the UI edit-finish handler each leave a duplicate-free list. -/
theorem C3_nodup_preserved (el : EditableList) (xs : List String) (v w u : String)
    (index : Int) (i : Nat)
    (hattr : el.allowDuplicatesAttr = some "false") (hnd : el.itemList.Nodup) :
    (addItems el xs).state.itemList.Nodup ∧
    (changeItem el index v).state.itemList.Nodup ∧
    (addListItem el w).state.itemList.Nodup ∧
    (itemEditFinished el i u).state.itemList.Nodup := by
  have hAllow := allowDuplicatesOf_eq_false el hattr
  refine ⟨?_, ?_, ?_, ?_⟩
  · show (addItemsGo (allowDuplicatesOf el) el.itemList xs).Nodup
    rw [hAllow]
    exact addItemsGo_nodup xs el.itemList hnd
  · unfold changeItem
    split
    · exact hnd
    · dsimp only
      split
      · exact hnd
      · show (changeItemAt (allowDuplicatesOf el) el.itemList _ v
            (el.itemList.getD _ "")).1.Nodup
        rw [hAllow]
        exact changeItemAt_nodup el.itemList _ v hnd
  · unfold addListItem
    split
    · exact hnd
    · dsimp only
      split
      · exact hnd
      · show (addItemsGo (allowDuplicatesOf el) el.itemList [w]).Nodup
        rw [hAllow]
        exact addItemsGo_nodup [w] el.itemList hnd
  · unfold itemEditFinished
    split
    · show (changeItemAt (allowDuplicatesOf el) el.itemList i u
          (el.itemList.getD i "")).1.Nodup
      rw [hAllow]
      exact changeItemAt_nodup el.itemList i u hnd
    · exact hnd

/-- Witness for claim C3 at a concrete state. -/
theorem C3_nodup_preserved_witness :
    (addItems ⟨some "false", none, ["a", "b"], false⟩ ["b", "c"]).state.itemList.Nodup := by
  exact (C3_nodup_preserved ⟨some "false", none, ["a", "b"], false⟩ ["b", "c"]
    "p" "q" "r" 0 0 rfl (by decide)).1

/-- When the new value is blank, the private changeItem keeps the list
unchanged and reports no difference. -/
theorem changeItemAt_blank (allowDup : Bool) (l : List String) (j : Nat) (v : String)
    (hblank : jsTrim v = "") :
    (changeItemAt allowDup l j v (l.getD j "")).1 = l ∧
    (changeItemAt allowDup l j v (l.getD j "")).2.differs = false := by
  simp only [changeItemAt, if_pos hblank, ite_self, set_getD_self]
  exact ⟨trivial, bne_self_eq_false _⟩

/-- Claim C10: a whitespace-only new value never changes an item: for every
integer index, changeItem with a blank value leaves the item list unchanged,
and finishing a UI edit with a blank value leaves the list unchanged and
dispatches no change event. -/
theorem C10_blank_value_keeps_item (el : EditableList) (index : Int) (i : Nat)
    (v : String) (hblank : jsTrim v = "") :
    (changeItem el index v).state.itemList = el.itemList ∧
    (itemEditFinished el i v).state.itemList = el.itemList ∧
    (itemEditFinished el i v).events = [] := by
  refine ⟨?_, ?_, ?_⟩
  · unfold changeItem
    split
    · rfl
    · dsimp only
      split
      · rfl
      · exact (changeItemAt_blank (allowDuplicatesOf el) el.itemList _ v hblank).1
  · unfold itemEditFinished
    split
    · exact (changeItemAt_blank (allowDuplicatesOf el) el.itemList i v hblank).1
    · rfl
  · unfold itemEditFinished
    split
    · dsimp only
      rw [(changeItemAt_blank (allowDuplicatesOf el) el.itemList i v hblank).2]
      rfl
    · rfl

/-- Witness for claim C10 at a concrete state. -/
theorem C10_blank_value_keeps_item_witness :
    (changeItem ⟨none, none, ["a"], false⟩ 0 " ").state.itemList = ["a"] := by
  exact (C10_blank_value_keeps_item ⟨none, none, ["a"], false⟩ 0 0 " " (by decide)).1
